import Mathlib

/-!
# Verification of the packed-batch embedding pipeline (`src/main.rs`)

Shallow embedding of the packed-batch construction loop (`main`,
lines 157-187) and the L2 normalizer (`normalize_l2`, lines 202-204)
of `src/main.rs`, together with a spec-modelled mean-pooling engine
(the pooling code lives in `mod models`, outside the provided sources).

Machine integers (`u32`, `usize`) are modelled as `Nat`: the builder only
adds and maximizes token counts, so no overflow wrap is observable for the
inputs considered.  Float values are modelled as real numbers for the
analytic claims (rounding idealized away, matching the spec's
"within floating-point tolerance"), and as an explicit IEEE-754
special-value type where NaN propagation is the point of the claim.
-/

set_option autoImplicit false

namespace RustyEmbeddings

/-- A tokenizer `Encoding` as consumed by the loop in `main`:
it exposes `get_ids()` and `get_type_ids()`; in the `tokenizers` crate
`Encoding::len()` returns the length of the ids array. -/
structure Encoding where
  ids : List Nat
  typeIds : List Nat
deriving Repr, DecidableEq

/-- `encoding.len()` of the `tokenizers` crate: the length of `ids`. -/
def Encoding.len (e : Encoding) : Nat := e.ids.length

/-- The `Batch` struct from `backend_core` as populated by `main`
(lines 181-187). -/
structure Batch where
  input_ids : List Nat
  token_type_ids : List Nat
  position_ids : List Nat
  cumulative_seq_lengths : List Nat
  max_length : Nat
deriving Repr, DecidableEq

/-- The mutable loop state of `main` lines 159-165: the four growing
vectors plus the running token counter and running max length. -/
structure BuildState where
  input_ids : List Nat
  token_type_ids : List Nat
  position_ids : List Nat
  cu_seq_lengths : List Nat
  current_tokens : Nat
  max_length : Nat
deriving Repr, DecidableEq

/-- One iteration of the `for encoding in encodings` loop
(`main` lines 168-179): extend the flat id/type/position buffers,
bump the running counter, update the running max, and push the new
cumulative total. `(position_offset..seq_len + position_offset)` is
`List.range' off seq_len`. -/
def buildStep (off : Nat) (st : BuildState) (e : Encoding) : BuildState :=
  { input_ids := st.input_ids ++ e.ids
    token_type_ids := st.token_type_ids ++ e.typeIds
    position_ids := st.position_ids ++ List.range' off e.len
    cu_seq_lengths := st.cu_seq_lengths ++ [st.current_tokens + e.ids.length]
    current_tokens := st.current_tokens + e.ids.length
    max_length := max st.max_length e.ids.length }

/-- The initial loop state (`main` lines 159-165): all buffers empty
except `cu_seq_lengths = [0]`, counters zero. -/
def initState : BuildState :=
  { input_ids := []
    token_type_ids := []
    position_ids := []
    cu_seq_lengths := [0]
    current_tokens := 0
    max_length := 0 }

/-- The batch-building step of `main` (lines 157-187): run the loop over
the encodings in input order and assemble the `Batch` struct. The
position offset is the `position_offset` local (hardwired to `2` at line
167). -/
def buildBatch (off : Nat) (encs : List Encoding) : Batch :=
  let st := encs.foldl (buildStep off) initState
  { input_ids := st.input_ids
    token_type_ids := st.token_type_ids
    position_ids := st.position_ids
    cumulative_seq_lengths := st.cu_seq_lengths
    max_length := st.max_length }

/-- A concrete encoding of a given token count, used for round-trip instances. -/
def encOfLen (n : Nat) : Encoding :=
  { ids := List.range n, typeIds := List.replicate n 0 }

/-! ## The L2 normalizer (`normalize_l2`, `src/main.rs` lines 202-204)

`normalize_l2(v) = v.broadcast_div(&v.sqr()?.sum_keepdim(1)?.sqrt()?)`.
Candle tensors of rank 1 and 2 are modelled with float entries idealized
as real numbers; `sum_keepdim(1)` fails on a rank-1 tensor (dimension 1
is out of range), and `broadcast_div` broadcasts an `(n, 1)` divisor
across an `(n, d)` dividend. -/

noncomputable section

/-- A candle tensor of rank 1 or rank 2 with real-valued entries. -/
inductive Tensor where
  | r1 : List ℝ → Tensor
  | r2 : List (List ℝ) → Tensor

/-- `v.sqr()`: elementwise square. -/
def sqrT : Tensor → Tensor
  | .r1 xs => .r1 (xs.map (fun x => x * x))
  | .r2 rows => .r2 (rows.map (fun r => r.map (fun x => x * x)))

/-- `t.sum_keepdim(1)`: sum along dimension 1, keeping it with extent 1.
A rank-1 tensor has no dimension 1, so candle rejects it
(`DimOutOfRange`). -/
def sum_keepdim1 : Tensor → Except String Tensor
  | .r1 _ => .error "DimOutOfRange"
  | .r2 rows => .ok (.r2 (rows.map (fun r => [r.sum])))

/-- `t.sqrt()`: elementwise square root. -/
def sqrtT : Tensor → Tensor
  | .r1 xs => .r1 (xs.map Real.sqrt)
  | .r2 rows => .r2 (rows.map (fun r => r.map Real.sqrt))

/-- `a.broadcast_div(&b)` in the shapes `normalize_l2` exercises: an
`(n, d)` tensor divided by an `(n, 1)` tensor, the single column being
broadcast across each row; other shape combinations are rejected. -/
def broadcast_div (a b : Tensor) : Except String Tensor :=
  match a, b with
  | .r2 ra, .r2 rb =>
      if ra.length = rb.length ∧ ∀ r ∈ rb, r.length = 1 then
        .ok (.r2 (List.zipWith (fun rowA rowB => rowA.map (fun x => x / rowB.headI)) ra rb))
      else .error "ShapeMismatch"
  | _, _ => .error "ShapeMismatch"

/-- `normalize_l2` (`src/main.rs` lines 202-204): divide the tensor by the
square root of the per-row sum of squares. -/
def normalize_l2 (v : Tensor) : Except String Tensor :=
  (sum_keepdim1 (sqrT v)).bind (fun s => broadcast_div v (sqrtT s))

/-- The sum of squared components of a vector. -/
def sumSq (r : List ℝ) : ℝ := (r.map (fun x => x * x)).sum

/-- The L2 (Euclidean) norm of a vector. -/
def l2norm (r : List ℝ) : ℝ := Real.sqrt (sumSq r)

/-- Per-row action of `normalize_l2`: divide each component by the square
root of the sum of squared components. -/
def rowNorm (r : List ℝ) : List ℝ := r.map (fun x => x / Real.sqrt (sumSq r))

/-! ## IEEE special-value model of the normalizer (for zero-norm inputs)

The real-valued model above cannot express the floating-point behaviour of
division by zero, which is what the zero-norm claim is about.  `FVal` is
an IEEE-754 value: a finite value (with its arithmetic idealized as exact
real arithmetic, overflow and signed zero ignored — the inputs of interest
are plain zeros), plus infinities and NaN, with the IEEE special-value
rules for add, mul, sqrt and div. -/

/-- An IEEE-754 floating-point value: finite (idealized as a real),
positive or negative infinity, or NaN. -/
inductive FVal where
  | fin : ℝ → FVal
  | inf : FVal
  | ninf : FVal
  | nan : FVal

/-- IEEE addition on special values; finite addition idealized as exact. -/
def fadd : FVal → FVal → FVal
  | .nan, _ => .nan
  | _, .nan => .nan
  | .fin x, .fin y => .fin (x + y)
  | .inf, .ninf => .nan
  | .ninf, .inf => .nan
  | .inf, _ => .inf
  | _, .inf => .inf
  | .ninf, _ => .ninf
  | _, .ninf => .ninf

/-- IEEE multiplication on special values; finite multiplication idealized
as exact. -/
def fmul : FVal → FVal → FVal
  | .nan, _ => .nan
  | _, .nan => .nan
  | .fin x, .fin y => .fin (x * y)
  | .inf, .fin y => if y = 0 then .nan else if 0 < y then .inf else .ninf
  | .fin x, .inf => if x = 0 then .nan else if 0 < x then .inf else .ninf
  | .ninf, .fin y => if y = 0 then .nan else if 0 < y then .ninf else .inf
  | .fin x, .ninf => if x = 0 then .nan else if 0 < x then .ninf else .inf
  | .inf, .inf => .inf
  | .inf, .ninf => .ninf
  | .ninf, .inf => .ninf
  | .ninf, .ninf => .inf

/-- IEEE square root: NaN on negative finite values and on `-∞`. -/
def fsqrt : FVal → FVal
  | .nan => .nan
  | .inf => .inf
  | .ninf => .nan
  | .fin x => if x < 0 then .nan else .fin (Real.sqrt x)

/-- IEEE division: `0 / 0 = NaN`, `x / 0 = ±∞` for finite `x ≠ 0`
(positive zero divisor), `±∞ / ±∞ = NaN`, finite division idealized as
exact. -/
def fdiv : FVal → FVal → FVal
  | .nan, _ => .nan
  | _, .nan => .nan
  | .fin x, .fin y =>
      if y = 0 then (if x = 0 then .nan else if 0 < x then .inf else .ninf)
      else .fin (x / y)
  | .fin _, .inf => .fin 0
  | .fin _, .ninf => .fin 0
  | .inf, .fin y => if 0 ≤ y then .inf else .ninf
  | .ninf, .fin y => if 0 ≤ y then .ninf else .inf
  | .inf, .inf => .nan
  | .inf, .ninf => .nan
  | .ninf, .inf => .nan
  | .ninf, .ninf => .nan

/-- The per-row sum of squares of `normalize_l2`
(`v.sqr()?.sum_keepdim(1)?`) under IEEE semantics: square each component
and accumulate from zero. -/
def fsumSq (r : List FVal) : FVal :=
  (r.map (fun x => fmul x x)).foldl fadd (FVal.fin 0)

/-- The rank-2 path of `normalize_l2` (`src/main.rs` lines 202-204) under
IEEE special-value semantics: each row is divided componentwise by the
square root of its sum of squares, with no guard for a zero divisor. -/
def normalize_l2F (rows : List (List FVal)) : List (List FVal) :=
  rows.map (fun r => r.map (fun x => fdiv x (fsqrt (fsumSq r))))

/-! ## Spec-modelled mean pooling -/

/-- Modelled from the spec: the `Mean` branch of the Pooling Engine.  The
pooling code lives in `mod models` (`models.rs`), which is not among the
provided sources; spec §4.3 defines it: "for sequence i, average the
hidden-state rows over the half-open token range
[cumulative_seq_lengths[i], cumulative_seq_lengths[i+1]), per dimension
independently. Division is by the sequence's true token count."
`meanPool hidden cu i j` is dimension `j` of the pooled vector of
sequence `i`. -/
def meanPool (hidden : List (List ℝ)) (cu : List Nat) (i j : Nat) : ℝ :=
  (((hidden.drop (cu.getD i 0)).take (cu.getD (i + 1) 0 - cu.getD i 0)).map
      (fun r => r.getD j 0)).sum
    / (cu.getD (i + 1) 0 - cu.getD i 0 : Nat)

end

/-! ## Characterization lemmas for the builder -/

theorem foldl_buildStep_input_ids (off : Nat) (encs : List Encoding) :
    ∀ st : BuildState,
      (encs.foldl (buildStep off) st).input_ids
        = st.input_ids ++ encs.flatMap (·.ids) := by
  induction encs with
  | nil => intro st; simp
  | cons e es ih =>
      intro st
      simp only [List.foldl_cons, List.flatMap_cons, ih, buildStep]
      simp [List.append_assoc]

theorem foldl_buildStep_token_type_ids (off : Nat) (encs : List Encoding) :
    ∀ st : BuildState,
      (encs.foldl (buildStep off) st).token_type_ids
        = st.token_type_ids ++ encs.flatMap (·.typeIds) := by
  induction encs with
  | nil => intro st; simp
  | cons e es ih =>
      intro st
      simp only [List.foldl_cons, List.flatMap_cons, ih, buildStep]
      simp [List.append_assoc]

theorem foldl_buildStep_position_ids (off : Nat) (encs : List Encoding) :
    ∀ st : BuildState,
      (encs.foldl (buildStep off) st).position_ids
        = st.position_ids ++ encs.flatMap (fun e => List.range' off e.len) := by
  induction encs with
  | nil => intro st; simp
  | cons e es ih =>
      intro st
      simp only [List.foldl_cons, List.flatMap_cons, ih, buildStep]
      simp [List.append_assoc]

theorem foldl_buildStep_current_tokens (off : Nat) (encs : List Encoding) :
    ∀ st : BuildState,
      (encs.foldl (buildStep off) st).current_tokens
        = st.current_tokens + (encs.map Encoding.len).sum := by
  induction encs with
  | nil => intro st; simp
  | cons e es ih =>
      intro st
      simp only [List.foldl_cons, List.map_cons, List.sum_cons, ih, buildStep]
      simp [Encoding.len, Nat.add_assoc]

theorem foldl_buildStep_max_length (off : Nat) (encs : List Encoding) :
    ∀ st : BuildState,
      (encs.foldl (buildStep off) st).max_length
        = (encs.map Encoding.len).foldl max st.max_length := by
  induction encs with
  | nil => intro st; simp
  | cons e es ih =>
      intro st
      simp only [List.foldl_cons, List.map_cons, ih, buildStep, Encoding.len]

theorem foldl_buildStep_cu (off : Nat) (encs : List Encoding) :
    ∀ st : BuildState,
      (encs.foldl (buildStep off) st).cu_seq_lengths
        = st.cu_seq_lengths
          ++ (List.range encs.length).map
              (fun i => st.current_tokens + ((encs.take (i + 1)).map Encoding.len).sum) := by
  induction encs with
  | nil => intro st; simp
  | cons e es ih =>
      intro st
      simp only [List.foldl_cons, ih, buildStep]
      rw [List.append_assoc]
      congr 1
      rw [List.length_cons, List.range_succ_eq_map, List.map_cons]
      simp only [List.take_succ_cons, List.map_cons, List.sum_cons, List.map_map]
      rw [List.take_zero]
      simp [Encoding.len, Function.comp, Nat.add_assoc]

/-- The cumulative sequence lengths produced by the builder are exactly the
prefix sums of the encoding lengths. -/
theorem buildBatch_cu (off : Nat) (encs : List Encoding) :
    (buildBatch off encs).cumulative_seq_lengths
      = (List.range (encs.length + 1)).map
          (fun i => ((encs.take i).map Encoding.len).sum) := by
  show (encs.foldl (buildStep off) initState).cu_seq_lengths = _
  rw [foldl_buildStep_cu]
  rw [List.range_succ_eq_map, List.map_cons]
  simp [initState, List.map_map, Function.comp]

theorem buildBatch_input_ids (off : Nat) (encs : List Encoding) :
    (buildBatch off encs).input_ids = encs.flatMap (·.ids) := by
  show (encs.foldl (buildStep off) initState).input_ids = _
  rw [foldl_buildStep_input_ids]; simp [initState]

theorem buildBatch_token_type_ids (off : Nat) (encs : List Encoding) :
    (buildBatch off encs).token_type_ids = encs.flatMap (·.typeIds) := by
  show (encs.foldl (buildStep off) initState).token_type_ids = _
  rw [foldl_buildStep_token_type_ids]; simp [initState]

theorem buildBatch_position_ids (off : Nat) (encs : List Encoding) :
    (buildBatch off encs).position_ids
      = encs.flatMap (fun e => List.range' off e.len) := by
  show (encs.foldl (buildStep off) initState).position_ids = _
  rw [foldl_buildStep_position_ids]; simp [initState]

theorem buildBatch_max_length (off : Nat) (encs : List Encoding) :
    (buildBatch off encs).max_length = (encs.map Encoding.len).foldl max 0 := by
  show (encs.foldl (buildStep off) initState).max_length = _
  rw [foldl_buildStep_max_length]; rfl

/-! ## Generic list helper lemmas -/

theorem getD_map_range (n i : Nat) (f : Nat → Nat) (h : i < n) :
    ((List.range n).map f).getD i 0 = f i := by
  rw [List.getD_eq_getElem?_getD, List.getElem?_map, List.getElem?_range h]; rfl

theorem getD_range' (s n i : Nat) (h : i < n) :
    (List.range' s n).getD i 0 = s + i := by
  rw [List.getD_eq_getElem?_getD, List.getElem?_range' _ _ h]
  simp

theorem le_foldl_max_init (a : Nat) (l : List Nat) : a ≤ l.foldl max a := by
  induction l generalizing a with
  | nil => exact le_refl a
  | cons y ys ih => exact le_trans (le_max_left a y) (ih (max a y))

theorem le_foldl_max_of_mem {l : List Nat} {x : Nat} (hx : x ∈ l) (a : Nat) :
    x ≤ l.foldl max a := by
  induction l generalizing a with
  | nil => cases hx
  | cons y ys ih =>
      rcases List.mem_cons.mp hx with h | h
      · subst h
        exact le_trans (le_max_right a x) (le_foldl_max_init _ _)
      · exact ih h _

theorem foldl_max_eq_or_mem (l : List Nat) (a : Nat) :
    l.foldl max a = a ∨ l.foldl max a ∈ l := by
  induction l generalizing a with
  | nil => exact Or.inl rfl
  | cons y ys ih =>
      simp only [List.foldl_cons]
      rcases ih (max a y) with h | h
      · rcases max_choice a y with hm | hm
        · exact Or.inl (h.trans hm)
        · exact Or.inr (List.mem_cons.mpr (Or.inl (h.trans hm)))
      · exact Or.inr (List.mem_cons.mpr (Or.inr h))

theorem getD_flatMap_sum {α : Type} (f : α → List Nat) (dflt : α) :
    ∀ (l : List α) (i : Nat), i < l.length → ∀ j : Nat,
      j < (f (l.getD i dflt)).length →
      (l.flatMap f).getD (((l.take i).map (fun e => (f e).length)).sum + j) 0
        = (f (l.getD i dflt)).getD j 0 := by
  intro l
  induction l with
  | nil => intro i hi; cases hi
  | cons x xs ih =>
      intro i hi j hj
      cases i with
      | zero =>
          simp only [List.getD_cons_zero] at hj ⊢
          simp only [List.take_zero, List.map_nil, List.sum_nil, Nat.zero_add,
            List.flatMap_cons]
          rw [List.getD_append]
          exact hj
      | succ i =>
          have hi' : i < xs.length := Nat.lt_of_succ_lt_succ hi
          simp only [List.getD_cons_succ] at hj ⊢
          simp only [List.take_succ_cons, List.map_cons, List.sum_cons,
            List.flatMap_cons]
          rw [Nat.add_assoc, List.getD_append_right _ _ _ _ (Nat.le_add_right _ _),
            Nat.add_sub_cancel_left]
          exact ih i hi' j hj

/-! ## Claim theorems about the batch builder -/

/-- C1: for every non-empty list of N encodings, the built Batch's
`cumulative_seq_lengths` has length N+1, its element 0 is 0, its element i
is the sum of the lengths of encodings 0..i-1 (so element N is the total
token count); and packing sequences of lengths [3, 5, 2] yields
`cumulative_seq_lengths = [0, 3, 8, 10]`. -/
theorem C1_cumulative_seq_lengths_are_prefix_sums (off : Nat)
    (encs : List Encoding) (_hne : encs ≠ []) :
    ((buildBatch off encs).cumulative_seq_lengths.length = encs.length + 1
      ∧ (buildBatch off encs).cumulative_seq_lengths.getD 0 0 = 0
      ∧ (∀ i, i ≤ encs.length →
          (buildBatch off encs).cumulative_seq_lengths.getD i 0
            = ((encs.take i).map Encoding.len).sum)
      ∧ (buildBatch off encs).cumulative_seq_lengths.getD encs.length 0
          = (encs.map Encoding.len).sum)
    ∧ (buildBatch 2 [encOfLen 3, encOfLen 5, encOfLen 2]).cumulative_seq_lengths
        = [0, 3, 8, 10] := by
  have hall : ∀ i, i ≤ encs.length →
      (buildBatch off encs).cumulative_seq_lengths.getD i 0
        = ((encs.take i).map Encoding.len).sum := by
    intro i hi
    rw [buildBatch_cu, getD_map_range _ _ _ (Nat.lt_succ_of_le hi)]
  refine ⟨⟨?_, ?_, hall, ?_⟩, ?_⟩
  · rw [buildBatch_cu]; simp
  · rw [hall 0 (Nat.zero_le _)]; simp
  · rw [hall encs.length (le_refl _), List.take_length]
  · decide

/-- Witness for C1 at a concrete non-empty input. -/
theorem C1_witness :
    (buildBatch 7 [encOfLen 4]).cumulative_seq_lengths.length = [encOfLen 4].length + 1 :=
  (C1_cumulative_seq_lengths_are_prefix_sums 7 [encOfLen 4] (by decide)).1.1

/-- C4 counterexample: the claim says the builder rejects an empty encoding
list (and zero-length encodings) and produces no Batch; but the loop in
`main` is straight-line code with no error path, and on the empty list it
produces the Batch `⟨[], [], [], [0], 0⟩`. -/
theorem C4_counterexample_empty_input_yields_batch :
    buildBatch 2 []
      = { input_ids := [], token_type_ids := [], position_ids := [],
          cumulative_seq_lengths := [0], max_length := 0 } := by
  decide

/-- C4 amended: the batch-building step performs no input validation: it
produces a Batch for the empty list (with `cumulative_seq_lengths = [0]`
and `max_length = 0`) and for a zero-length encoding (producing two equal
consecutive cumulative offsets), never an `InvalidInput` error. -/
theorem C4_no_input_validation :
    (buildBatch 2 []).cumulative_seq_lengths = [0]
    ∧ (buildBatch 2 []).max_length = 0
    ∧ (buildBatch 2 [{ ids := [], typeIds := [] }]).cumulative_seq_lengths = [0, 0] := by
  decide

/-- C5: when every encoding's type-id array has the same length as its id
array, the three flat arrays of the built Batch have equal lengths, all
equal to the last element of `cumulative_seq_lengths`, and the first
element of `cumulative_seq_lengths` is 0. -/
theorem C5_flat_array_lengths (off : Nat) (encs : List Encoding)
    (h : ∀ e ∈ encs, e.typeIds.length = e.ids.length) :
    (buildBatch off encs).input_ids.length
        = (buildBatch off encs).token_type_ids.length
    ∧ (buildBatch off encs).input_ids.length
        = (buildBatch off encs).position_ids.length
    ∧ (buildBatch off encs).input_ids.length
        = (buildBatch off encs).cumulative_seq_lengths.getD
            ((buildBatch off encs).cumulative_seq_lengths.length - 1) 0
    ∧ (buildBatch off encs).cumulative_seq_lengths.getD 0 0 = 0 := by
  have hids : (buildBatch off encs).input_ids.length
      = (encs.map Encoding.len).sum := by
    rw [buildBatch_input_ids, List.length_flatMap]
    rfl
  have hcu_len : (buildBatch off encs).cumulative_seq_lengths.length
      = encs.length + 1 := by
    rw [buildBatch_cu]; simp
  refine ⟨?_, ?_, ?_, ?_⟩
  · rw [hids, buildBatch_token_type_ids, List.length_flatMap]
    congr 1
    apply List.map_congr_left
    intro e he
    exact (h e he).symm
  · rw [hids, buildBatch_position_ids, List.length_flatMap]
    congr 1
    apply List.map_congr_left
    intro e _
    simp [Encoding.len]
  · rw [hids, hcu_len, Nat.add_sub_cancel, buildBatch_cu,
      getD_map_range _ _ _ (Nat.lt_succ_self _), List.take_length]
  · rw [buildBatch_cu, getD_map_range _ _ _ (Nat.succ_pos _)]
    simp

/-- Witness for C5 at a concrete input whose type-id arrays match. -/
theorem C5_witness :
    (buildBatch 2 [encOfLen 2, encOfLen 3]).input_ids.length
      = (buildBatch 2 [encOfLen 2, encOfLen 3]).token_type_ids.length :=
  (C5_flat_array_lengths 2 [encOfLen 2, encOfLen 3] (by decide)).1

/-- C6: for each encoding, in input order, the builder appends to
`position_ids` exactly the contiguous ascending range
[position_offset, position_offset + len); consequently the position id of
the j-th token of sequence i (at flat index `cumulative_seq_lengths[i] + j`)
is `position_offset + j`. -/
theorem C6_position_ids_are_ranges (off : Nat) (encs : List Encoding) :
    (buildBatch off encs).position_ids
        = encs.flatMap (fun e => List.range' off e.len)
    ∧ ∀ i, i < encs.length → ∀ j, j < (encs.getD i (encOfLen 0)).len →
        (buildBatch off encs).position_ids.getD
            ((buildBatch off encs).cumulative_seq_lengths.getD i 0 + j) 0
          = off + j := by
  refine ⟨buildBatch_position_ids off encs, ?_⟩
  intro i hi j hj
  have hcu : (buildBatch off encs).cumulative_seq_lengths.getD i 0
      = ((encs.take i).map (fun e => (List.range' off e.len).length)).sum := by
    rw [buildBatch_cu, getD_map_range _ _ _ (Nat.lt_succ_of_lt hi)]
    congr 1
    apply List.map_congr_left
    intro e _
    simp [Encoding.len]
  rw [buildBatch_position_ids, hcu,
    getD_flatMap_sum (fun e => List.range' off e.len) (encOfLen 0) encs i hi j
      (by simpa [Encoding.len] using hj),
    getD_range' _ _ _ (by simpa [Encoding.len] using hj)]

/-- Witness for C6 at a concrete input. -/
theorem C6_witness :
    (buildBatch 2 [encOfLen 3, encOfLen 2]).position_ids.getD
        ((buildBatch 2 [encOfLen 3, encOfLen 2]).cumulative_seq_lengths.getD 1 0 + 1) 0
      = 2 + 1 :=
  (C6_position_ids_are_ranges 2 [encOfLen 3, encOfLen 2]).2 1 (by decide) 1 (by decide)

/-- C7: for every non-empty list of encodings, `max_length` of the built
Batch is the maximum single-sequence length: it is the length of one of
the encodings and no encoding is longer. -/
theorem C7_max_length_is_maximum (off : Nat) (encs : List Encoding)
    (hne : encs ≠ []) :
    (buildBatch off encs).max_length ∈ encs.map Encoding.len
    ∧ ∀ n ∈ encs.map Encoding.len, n ≤ (buildBatch off encs).max_length := by
  rw [buildBatch_max_length]
  constructor
  · rcases foldl_max_eq_or_mem (encs.map Encoding.len) 0 with h | h
    · rcases encs with _ | ⟨e, es⟩
      · exact absurd rfl hne
      · have hmem : e.len ∈ (e :: es).map Encoding.len := by
          simp
        have hle : e.len ≤ ((e :: es).map Encoding.len).foldl max 0 :=
          le_foldl_max_of_mem hmem 0
        rw [h] at hle
        have : e.len = 0 := Nat.le_zero.mp hle
        rw [h, ← this]
        exact hmem
    · exact h
  · intro n hn
    exact le_foldl_max_of_mem hn 0

/-- Witness for C7 at a concrete non-empty input. -/
theorem C7_witness :
    (buildBatch 2 [encOfLen 1, encOfLen 4]).max_length
      ∈ [encOfLen 1, encOfLen 4].map Encoding.len :=
  (C7_max_length_is_maximum 2 [encOfLen 1, encOfLen 4] (by decide)).1

/-! ## Lemmas about the normalizer -/

theorem normalize_l2_r2 (rows : List (List ℝ)) :
    normalize_l2 (Tensor.r2 rows) = Except.ok (Tensor.r2 (rows.map rowNorm)) := by
  simp only [normalize_l2, sqrT, sum_keepdim1, sqrtT, Except.bind, broadcast_div,
    List.map_map]
  rw [if_pos]
  · congr 1
    congr 1
    rw [List.zipWith_map_right, List.zipWith_same]
    apply List.map_congr_left
    intro r _
    simp [rowNorm, sumSq, List.headI]
  · constructor
    · simp
    · intro r hr
      simp only [List.mem_map] at hr
      obtain ⟨s, _, rfl⟩ := hr
      rfl

theorem normalize_l2_r1 (xs : List ℝ) :
    normalize_l2 (Tensor.r1 xs) = Except.error "DimOutOfRange" := by
  simp [normalize_l2, sqrT, sum_keepdim1, Except.bind]

theorem sumSq_nonneg (r : List ℝ) : 0 ≤ sumSq r := by
  apply List.sum_nonneg
  intro x hx
  simp only [List.mem_map] at hx
  obtain ⟨y, _, rfl⟩ := hx
  exact mul_self_nonneg y

theorem sumSq_rowNorm (r : List ℝ) : sumSq (rowNorm r) = sumSq r / sumSq r := by
  have hs : Real.sqrt (sumSq r) * Real.sqrt (sumSq r) = sumSq r :=
    Real.mul_self_sqrt (sumSq_nonneg r)
  show ((r.map (fun x => x / Real.sqrt (sumSq r))).map (fun x => x * x)).sum
      = sumSq r / sumSq r
  rw [List.map_map]
  have hfun : ((fun x => x * x) ∘ fun x => x / Real.sqrt (sumSq r))
      = fun x => (x * x) * (Real.sqrt (sumSq r) * Real.sqrt (sumSq r))⁻¹ := by
    funext x
    simp only [Function.comp_apply, div_eq_mul_inv, mul_inv]
    ring
  rw [hfun, List.sum_map_mul_right, hs, div_eq_mul_inv]
  rfl

theorem l2norm_rowNorm {r : List ℝ} (h0 : sumSq r ≠ 0) :
    l2norm (rowNorm r) = 1 := by
  rw [l2norm, sumSq_rowNorm, div_self h0, Real.sqrt_one]

theorem rowNorm_of_norm_one {r : List ℝ} (h1 : l2norm r = 1) : rowNorm r = r := by
  have hs : Real.sqrt (sumSq r) = 1 := h1
  rw [rowNorm, hs]
  simp

theorem rowNorm_idem {r : List ℝ} (h0 : sumSq r ≠ 0) :
    rowNorm (rowNorm r) = rowNorm r :=
  rowNorm_of_norm_one (l2norm_rowNorm h0)

theorem getD_map_of_lt {α β : Type} (f : α → β) (l : List α) (i : Nat)
    (hi : i < l.length) (d : α) (d' : β) :
    (l.map f).getD i d' = f (l.getD i d) := by
  simp [List.getD_eq_getElem?_getD, List.getElem?_map, List.getElem?_eq_getElem hi]

/-! ## Claim theorems about the normalizer -/

/-- C3: the normalizer divides each pooled vector independently by the
square root of the sum of its squared components, and every row with
non-zero sum of squares comes out with L2 norm exactly 1 (the model
idealizes floats as reals, so "within floating-point tolerance" becomes
exact equality). -/
theorem C3_normalizer_yields_unit_norm (rows : List (List ℝ)) (i : Nat)
    (hi : i < rows.length) (h0 : sumSq (rows.getD i []) ≠ 0) :
    normalize_l2 (Tensor.r2 rows) = Except.ok (Tensor.r2 (rows.map rowNorm))
    ∧ l2norm ((rows.map rowNorm).getD i []) = 1 := by
  refine ⟨normalize_l2_r2 rows, ?_⟩
  rw [getD_map_of_lt rowNorm rows i hi [] []]
  exact l2norm_rowNorm h0

/-- Witness for C3 at the concrete row [3, 4]. -/
theorem C3_witness :
    normalize_l2 (Tensor.r2 [[(3 : ℝ), 4]])
        = Except.ok (Tensor.r2 ([[(3 : ℝ), 4]].map rowNorm))
    ∧ l2norm (([[(3 : ℝ), 4]].map rowNorm).getD 0 []) = 1 :=
  C3_normalizer_yields_unit_norm [[(3 : ℝ), 4]] 0 (by norm_num)
    (by show sumSq [(3 : ℝ), 4] ≠ 0; simp [sumSq]; norm_num)

/-- C9: normalization is idempotent: on rows that already have unit L2
norm it is the identity, and on rows with non-zero norm applying the
normalizer twice equals applying it once (its output is a fixed point). -/
theorem C9_normalize_idempotent (rows : List (List ℝ)) :
    ((∀ r ∈ rows, l2norm r = 1) →
      normalize_l2 (Tensor.r2 rows) = Except.ok (Tensor.r2 rows))
    ∧ ((∀ r ∈ rows, sumSq r ≠ 0) →
      ∃ out, normalize_l2 (Tensor.r2 rows) = Except.ok out
        ∧ normalize_l2 out = Except.ok out) := by
  constructor
  · intro h1
    rw [normalize_l2_r2]
    congr 2
    have : rows.map rowNorm = rows.map id :=
      List.map_congr_left (fun r hr => rowNorm_of_norm_one (h1 r hr))
    simpa using this
  · intro h0
    refine ⟨Tensor.r2 (rows.map rowNorm), normalize_l2_r2 rows, ?_⟩
    rw [normalize_l2_r2]
    congr 2
    rw [List.map_map]
    apply List.map_congr_left
    intro r hr
    exact rowNorm_idem (h0 r hr)

/-- Witness for C9 at the concrete unit-norm row [1, 0]. -/
theorem C9_witness :
    normalize_l2 (Tensor.r2 [[(1 : ℝ), 0]]) = Except.ok (Tensor.r2 [[(1 : ℝ), 0]]) :=
  (C9_normalize_idempotent [[(1 : ℝ), 0]]).1 (by
    intro r hr
    simp only [List.mem_singleton] at hr
    subst hr
    show Real.sqrt (sumSq [(1 : ℝ), 0]) = 1
    simp [sumSq])

/-- C10: `normalize_l2` normalizes along dimension 1 only: a rank-2 input
of shape (n, d) yields a rank-2 output of the same length in which row i
is a function of row i of the input alone, while a rank-1 input is
rejected with an error instead of being normalized. -/
theorem C10_normalize_rowwise_rank2_only (rows : List (List ℝ)) (xs : List ℝ) :
    normalize_l2 (Tensor.r2 rows) = Except.ok (Tensor.r2 (rows.map rowNorm))
    ∧ (rows.map rowNorm).length = rows.length
    ∧ (∀ i : Nat, (rows.map rowNorm).getD i [] = rowNorm (rows.getD i []))
    ∧ normalize_l2 (Tensor.r1 xs) = Except.error "DimOutOfRange" := by
  refine ⟨normalize_l2_r2 rows, List.length_map rows rowNorm, ?_, normalize_l2_r1 xs⟩
  intro i
  by_cases hi : i < rows.length
  · exact getD_map_of_lt rowNorm rows i hi [] []
  · have hlen : rows.length ≤ i := Nat.le_of_not_lt hi
    rw [List.getD_eq_default _ _ (by simpa using hlen), List.getD_eq_default _ _ hlen]
    rfl

/-! ## Claim theorems about zero-norm inputs (IEEE model) -/

theorem foldl_fadd_replicate_zero :
    ∀ d : Nat, (List.replicate d (FVal.fin 0)).foldl fadd (FVal.fin 0) = FVal.fin 0 := by
  intro d
  induction d with
  | zero => rfl
  | succ d ih =>
      rw [List.replicate_succ, List.foldl_cons]
      show (List.replicate d (FVal.fin 0)).foldl fadd (FVal.fin (0 + 0)) = FVal.fin 0
      rw [add_zero]
      exact ih

/-- C8 counterexample: the claim says normalization of a zero-norm vector
follows an explicit policy and never produces NaN; but `normalize_l2` has
no zero guard, and on the zero vector [0, 0] every component becomes
`0 / sqrt 0 = 0 / 0 = NaN` under IEEE semantics. -/
theorem C8_counterexample_zero_vector_nan :
    normalize_l2F [[FVal.fin 0, FVal.fin 0]] = [[FVal.nan, FVal.nan]] := by
  simp [normalize_l2F, fsumSq, fmul, fadd, fsqrt, fdiv, Real.sqrt_zero]

/-- C8 amended: `normalize_l2` has no zero-handling policy: on a
zero-norm pooled vector it divides by zero, and under IEEE float
semantics every component of the output is NaN. -/
theorem C8_zero_vector_all_nan (d : Nat) :
    normalize_l2F [List.replicate d (FVal.fin 0)] = [List.replicate d FVal.nan] := by
  have hsum : fsumSq (List.replicate d (FVal.fin 0)) = FVal.fin 0 := by
    rw [fsumSq, List.map_replicate]
    show (List.replicate d (FVal.fin (0 * 0))).foldl fadd (FVal.fin 0) = FVal.fin 0
    rw [mul_zero]
    exact foldl_fadd_replicate_zero d
  simp only [normalize_l2F, List.map_cons, List.map_nil, hsum]
  congr 1
  rw [List.map_replicate]
  congr 1
  show fdiv (FVal.fin 0) (fsqrt (FVal.fin 0)) = FVal.nan
  simp [fsqrt, fdiv, Real.sqrt_zero]

/-! ## Claim theorem about mean pooling (spec-modelled) -/

theorem take_succ_len_sum (encs : List Encoding) (i : Nat) (hi : i < encs.length) :
    ((encs.take (i + 1)).map Encoding.len).sum
      = ((encs.take i).map Encoding.len).sum + (encs.getD i (encOfLen 0)).len := by
  rw [List.take_succ, List.map_append, List.sum_append]
  congr 1
  rw [List.getElem?_eq_getElem hi]
  simp [List.getD_eq_getElem?_getD, List.getElem?_eq_getElem hi]

/-- C2: Mean pooling over a built batch averages, per dimension
independently, the hidden-state rows of the half-open token range
[cumulative_seq_lengths[i], cumulative_seq_lengths[i+1]), and the divisor
is the sequence's own token count (the length of encoding i), never the
batch's `max_length`. -/
theorem C2_mean_pool_divides_by_true_length (off : Nat) (encs : List Encoding)
    (hidden : List (List ℝ)) (i j : Nat) (hi : i < encs.length) :
    meanPool hidden (buildBatch off encs).cumulative_seq_lengths i j
      = (((hidden.drop (((encs.take i).map Encoding.len).sum)).take
            ((encs.getD i (encOfLen 0)).len)).map (fun r => r.getD j 0)).sum
        / ((encs.getD i (encOfLen 0)).len : Nat) := by
  have hcu_i : (buildBatch off encs).cumulative_seq_lengths.getD i 0
      = ((encs.take i).map Encoding.len).sum := by
    rw [buildBatch_cu, getD_map_range _ _ _ (Nat.lt_succ_of_lt hi)]
  have hcu_si : (buildBatch off encs).cumulative_seq_lengths.getD (i + 1) 0
      = ((encs.take i).map Encoding.len).sum + (encs.getD i (encOfLen 0)).len := by
    rw [buildBatch_cu, getD_map_range _ _ _ (Nat.succ_lt_succ hi)]
    exact take_succ_len_sum encs i hi
  rw [meanPool, hcu_i, hcu_si, Nat.add_sub_cancel_left]

/-- Witness for C2 at a concrete batch of lengths [2, 3]. -/
theorem C2_witness :
    meanPool [[(1 : ℝ)], [3], [5], [7], [9]]
        (buildBatch 2 [encOfLen 2, encOfLen 3]).cumulative_seq_lengths 0 0
      = ((([[(1 : ℝ)], [3], [5], [7], [9]].drop
            ((([encOfLen 2, encOfLen 3].take 0).map Encoding.len).sum)).take
            (([encOfLen 2, encOfLen 3].getD 0 (encOfLen 0)).len)).map
          (fun r => r.getD 0 0)).sum
        / (([encOfLen 2, encOfLen 3].getD 0 (encOfLen 0)).len : Nat) :=
  C2_mean_pool_divides_by_true_length 2 [encOfLen 2, encOfLen 3]
    [[(1 : ℝ)], [3], [5], [7], [9]] 0 0 (by decide)

end RustyEmbeddings
